import Mathlib

/-!
Shallow embedding of the geometry/highlighting core of the chart engine:
the stacked-bar highlighter (`BarHighlighter`), the horizontal bar buffer
(`HorizontalBarBuffer`), the bubble renderer (`BubbleChartRenderer`), and the
full-bar highlight path of `BarChart`.  JavaScript numbers are modelled as
rationals (`ℚ`); circle radii, which involve `Math.sqrt`, live in `ℝ`.
-/

namespace ChartCore

/-! ## Data model

`BubbleEntry` and `BarEntryM` model chart entries.  Property access such as
`entry[xProperty]` (the data set's configurable field accessors) is modelled
by a function `props : String → ℚ`. -/

/-- Bubble entry: fields are reached only through dynamic property access
(`entry[yKey]`, `entry[set.sizeProperty]`), modelled as a total map. -/
structure BubbleEntry where
  props : String → ℚ

/-- Bar entry as used by `BarHighlighter` and `HorizontalBarBuffer`:
direct `x`/`y` fields, dynamic properties, optional stack components
(`yVals`), the derived `[start, end]` range pairs, and the cached sum of
absolute values of negative components. -/
structure BarEntryM where
  props : String → ℚ
  x : ℚ
  y : ℚ
  yVals : Option (List ℚ)
  ranges : List (ℚ × ℚ)
  negativeSum : ℚ

/-- Highlight object.  `stackIndex`, `entry` (carried together with its
index when present) and `drawX`/`drawY` are optional because the TypeScript
object literals leave them `undefined` unless explicitly set. -/
structure Highlight where
  x : ℚ
  y : ℚ
  xPx : ℚ
  yPx : ℚ
  dataSetIndex : ℕ
  stackIndex : Option ℕ
  axis : ℕ
  entry : Option (BubbleEntry × ℕ)
  drawX : Option ℚ
  drawY : Option ℚ

/-! ## BarHighlighter.getClosestStackIndex

The source stores each range as a two-element array `[start, end]`
(see `ranges[stackIndex][1]` in `getStackedHighlight`), so the loop test
`ranges[i].includes(value)` is `Array.prototype.includes`: membership among
the two endpoints, i.e. `value === start || value === end`. -/

/-- Scan of the `for` loop in `getClosestStackIndex`: index of the first
range having `value` as one of its two elements, if any. -/
def stackScan (value : ℚ) : List (ℚ × ℚ) → Option ℕ
  | [] => none
  | p :: rest =>
    if value = p.1 ∨ value = p.2 then some 0
    else (stackScan value rest).map (· + 1)

/-- Embedding of `BarHighlighter.getClosestStackIndex`.  The fallback uses
`Math.max(ranges.length - 1, 0)`, which coincides with truncated `ℕ`
subtraction. -/
def getClosestStackIndex (ranges : List (ℚ × ℚ)) (value : ℚ) : ℕ :=
  if ranges.length = 0 then 0
  else
    match stackScan value ranges with
    | some i => i
    | none =>
      if value > (ranges.getD (ranges.length - 1) (0, 0)).2 then ranges.length - 1
      else 0

/-- Bar data set as consumed by `getStackedHighlight`: the configured field
accessors, the axis dependency handed to `getTransformer`, and the entry
lookup. -/
structure BarDataSetM where
  xProperty : String
  yProperty : String
  axisDependency : ℕ
  getEntryForXValue : ℚ → ℚ → Option BarEntryM

/-- Embedding of `BarHighlighter.getStackedHighlight`.  The chart's
`getTransformer(axis).getPixelForValues` chain is abstracted as the
function argument `pixelForValues`. -/
def getStackedHighlight (pixelForValues : ℕ → ℚ → ℚ → ℚ × ℚ) (high : Highlight)
    (set : BarDataSetM) (xVal yVal : ℚ) : Option Highlight :=
  match set.getEntryForXValue xVal yVal with
  | none => none
  | some entry =>
    match entry.yVals with
    | none => some high
    | some _ =>
      if 0 < entry.ranges.length then
        let stackIndex := getClosestStackIndex entry.ranges yVal
        let pixels := pixelForValues set.axisDependency high.x
          (entry.ranges.getD stackIndex (0, 0)).2
        some { x := entry.props set.xProperty
               y := entry.props set.yProperty
               xPx := pixels.1
               yPx := pixels.2
               dataSetIndex := high.dataSetIndex
               stackIndex := some stackIndex
               axis := high.axis
               entry := none
               drawX := none
               drawY := none }
      else none

/-! ## HorizontalBarBuffer.feed -/

/-- Rectangle appended by `addBar(left, top, right, bottom)`. -/
structure BarRect where
  left : ℚ
  top : ℚ
  right : ℚ
  bottom : ℚ
deriving DecidableEq

/-- Non-stacked branch of `HorizontalBarBuffer.feed` (lines 28-54): edges in
data units; the phase multiplies `right` when `right > 0`, else `left`. -/
def feedPlain (inverted : Bool) (phaseY barWidthHalf x y : ℚ) : BarRect :=
  let bottom := x - barWidthHalf
  let top := x + barWidthHalf
  let left0 := if inverted then (if 0 ≤ y then y else 0) else (if y ≤ 0 then y else 0)
  let right0 := if inverted then (if y ≤ 0 then y else 0) else (if 0 ≤ y then y else 0)
  let lr := if 0 < right0 then (left0, right0 * phaseY) else (left0 * phaseY, right0)
  ⟨lr.1, top, lr.2, bottom⟩

/-- Cursor walk of the stacked branch: for each component the pair
`(y, yStart)` produced by the loop, with `posY` and `negY` threaded exactly
as in the source (`value >= 0` extends the positive cursor, otherwise the
negative cursor advances by `Math.abs(value)`). -/
def stackSegments (posY negY : ℚ) : List ℚ → List (ℚ × ℚ)
  | [] => []
  | value :: rest =>
    if 0 ≤ value then (posY, posY + value) :: stackSegments (posY + value) negY rest
    else (negY, negY + |value|) :: stackSegments posY (negY + |value|) rest

/-- Rectangle built from one stack segment `(y, yStart)` (lines 80-98):
min/max comparison happens before both edges are multiplied by the phase. -/
def stackRect (inverted : Bool) (phaseY barWidthHalf x : ℚ) (s : ℚ × ℚ) : BarRect :=
  let bottom := x - barWidthHalf
  let top := x + barWidthHalf
  let left0 := if inverted then (if s.2 ≤ s.1 then s.1 else s.2)
               else (if s.1 ≤ s.2 then s.1 else s.2)
  let right0 := if inverted then (if s.1 ≤ s.2 then s.1 else s.2)
                else (if s.2 ≤ s.1 then s.1 else s.2)
  ⟨left0 * phaseY, top, right0 * phaseY, bottom⟩

/-- Stacked branch of `HorizontalBarBuffer.feed` (lines 56-99): one
rectangle per component, in component order, cursors starting at `0` and
`-negativeSum`. -/
def feedStacked (inverted : Bool) (phaseY barWidthHalf x negativeSum : ℚ)
    (vals : List ℚ) : List BarRect :=
  (stackSegments 0 (-negativeSum) vals).map (stackRect inverted phaseY barWidthHalf x)

/-- Loop body of `feed` for one entry: dispatch on `mContainsStacks` and
`e.getYVals()`. -/
def feedEntry (containsStacks inverted : Bool) (phaseY barWidthHalf : ℚ)
    (e : BarEntryM) : List BarRect :=
  match e.yVals with
  | none => [feedPlain inverted phaseY barWidthHalf e.x e.y]
  | some vals =>
    if containsStacks then feedStacked inverted phaseY barWidthHalf e.x e.negativeSum vals
    else [feedPlain inverted phaseY barWidthHalf e.x e.y]

/-- Embedding of `HorizontalBarBuffer.feed`.  The JavaScript loop
`for (let i = 0; i < data.getEntryCount() * this.phaseX; i++)` runs for the
naturals below `entryCount * phaseX`, i.e. `⌈entryCount * phaseX⌉` times
(zero when the product is not positive); `e === null` entries are skipped. -/
def feed (containsStacks inverted : Bool) (phaseX phaseY barWidth : ℚ)
    (getEntryForIndex : ℕ → Option BarEntryM) (entryCount : ℕ) : List BarRect :=
  (List.range ⌈(entryCount : ℚ) * phaseX⌉₊).flatMap fun i =>
    match getEntryForIndex i with
    | none => []
    | some e => feedEntry containsStacks inverted phaseY (barWidth / 2) e

/-- Main-axis coordinate of the edge a bar grows from (the cursor value
before the component is added): `left` unless the buffer is inverted. -/
def mainStartEdge (inverted : Bool) (r : BarRect) : ℚ :=
  if inverted then r.right else r.left

/-- Main-axis coordinate of the edge a bar grows to (the cursor value after
the component is added): `right` unless the buffer is inverted. -/
def mainEndEdge (inverted : Bool) (r : BarRect) : ℚ :=
  if inverted then r.left else r.right

/-! ## BubbleChartRenderer -/

/-- Embedding of `BubbleChartRenderer.getShapeSize`: the normalized factor
is `Math.sqrt(entrySize / maxSize)` guarded against `maxSize === 0`, the
legacy factor is `entrySize` itself; the result is `reference * factor`. -/
noncomputable def getShapeSize (entrySize maxSize reference : ℚ)
    (normalizeSize : Bool) : ℝ :=
  let factor : ℝ :=
    if normalizeSize then (if maxSize = 0 then 1 else Real.sqrt ((entrySize / maxSize : ℚ) : ℝ))
    else (entrySize : ℝ)
  (reference : ℝ) * factor

/-- Radius of the circle actually drawn for an entry: `drawDataSet` and
`drawHighlighted` both pass `getShapeSize(...) / 2` (`shapeHalf`) to
`drawCircle`. -/
noncomputable def shapeHalf (entrySize maxSize reference : ℚ)
    (normalizeSize : Bool) : ℝ :=
  getShapeSize entrySize maxSize reference normalizeSize / 2

/-- Bubble data set as consumed by `drawHighlighted`. -/
structure BubbleDataSet where
  yProperty : String
  sizeProperty : String
  highlightEnabled : Bool
  maxSize : ℚ
  normalizeSize : Bool
  axisDependency : ℕ
  getEntryAndIndexForXValue : ℚ → ℚ → BubbleEntry × ℕ
  getEntryXValue : BubbleEntry → ℕ → ℚ

/-- Environment consumed by `drawHighlighted`: the data-set lookup, the
per-axis `pointValuesToPixel` transform on one point, the x-bounds check,
and the animator phase. -/
structure BubbleEnv where
  getDataSetByIndex : ℕ → Option BubbleDataSet
  pointValuesToPixel : ℕ → ℚ × ℚ → ℚ × ℚ
  isInBoundsX : BubbleEntry → BubbleDataSet → Bool
  phaseY : ℚ

/-- Effect of one iteration of the `drawHighlighted` loop on the `Highlight`
it processes (the projection of the loop body onto the highlight's state —
painting work that never touches the highlight is not modelled).  Every
`continue` path leaves the highlight untouched; when execution reaches
lines 223-224 the highlight's `drawX`/`drawY` are assigned the transformed
pixel position. -/
def drawHighlightedOne (env : BubbleEnv) (high : Highlight) : Highlight :=
  match env.getDataSetByIndex high.dataSetIndex with
  | none => high
  | some set =>
    if ¬ set.highlightEnabled then high
    else
      let ei := match high.entry with
        | some p => p
        | none => set.getEntryAndIndexForXValue high.x high.y
      if ei.1.props set.yProperty ≠ high.y then high
      else if ¬ env.isInBoundsX ei.1 set then high
      else
        let pt := env.pointValuesToPixel set.axisDependency
          (set.getEntryXValue ei.1 ei.2, ei.1.props set.yProperty * env.phaseY)
        { high with drawX := some pt.1, drawY := some pt.2 }

/-- Full-bar branch of `BarChart.getHighlightByTouchPoint` (lines 77-84):
a fresh object carrying only `x`, `y`, `xPx`, `yPx`, `dataSetIndex` and
`axis`; the stack index (and every other optional field) is left out. -/
def stripStackIndex (h : Highlight) : Highlight :=
  { x := h.x, y := h.y, xPx := h.xPx, yPx := h.yPx
    dataSetIndex := h.dataSetIndex, axis := h.axis
    stackIndex := none, entry := none, drawX := none, drawY := none }

/-! ## Helper lemmas -/

theorem stackScan_some_lt {value : ℚ} :
    ∀ {l : List (ℚ × ℚ)} {i : ℕ}, stackScan value l = some i → i < l.length := by
  intro l
  induction l with
  | nil => intro i h; exact nomatch h
  | cons p rest ih =>
    intro i h
    rw [stackScan] at h
    split at h
    · cases h; simp
    · cases hr : stackScan value rest with
      | none => rw [hr] at h; exact nomatch h
      | some j =>
        rw [hr] at h
        have hj := ih hr
        have hji : j + 1 = i := by simpa using h
        simp only [List.length_cons]
        omega

theorem stackScan_eq_none {value : ℚ} {l : List (ℚ × ℚ)}
    (h : ∀ p ∈ l, value ≠ p.1 ∧ value ≠ p.2) : stackScan value l = none := by
  induction l with
  | nil => rfl
  | cons p rest ih =>
    rw [stackScan]
    have hp := h p (by simp)
    rw [if_neg (by tauto)]
    rw [ih fun q hq => h q (by simp [hq])]
    rfl

theorem stackScan_first {value : ℚ} :
    ∀ {l : List (ℚ × ℚ)} {i : ℕ}, i < l.length →
      (value = (l.getD i (0, 0)).1 ∨ value = (l.getD i (0, 0)).2) →
      (∀ j < i, value ≠ (l.getD j (0, 0)).1 ∧ value ≠ (l.getD j (0, 0)).2) →
      stackScan value l = some i := by
  intro l
  induction l with
  | nil => intro i hi; simp at hi
  | cons p rest ih =>
    intro i hi hpred hbefore
    match i with
    | 0 =>
      rw [stackScan, if_pos (by simpa using hpred)]
    | i' + 1 =>
      have h0 := hbefore 0 (by omega)
      simp only [List.getD_cons_zero] at h0
      rw [stackScan, if_neg (by tauto)]
      rw [ih (by simpa using hi) (by simpa using hpred)
        (fun j hj => by simpa using hbefore (j + 1) (by omega))]
      rfl

theorem getClosestStackIndex_lt {ranges : List (ℚ × ℚ)} (h : ranges ≠ [])
    (value : ℚ) : getClosestStackIndex ranges value < ranges.length := by
  have hpos : 0 < ranges.length := List.length_pos.mpr h
  unfold getClosestStackIndex
  rw [if_neg (by omega)]
  cases hs : stackScan value ranges with
  | some i => simp only [hs]; exact stackScan_some_lt hs
  | none => simp only [hs]; split <;> omega

theorem stackSegments_length (vals : List ℚ) :
    ∀ posY negY, (stackSegments posY negY vals).length = vals.length := by
  induction vals with
  | nil => intro p n; rfl
  | cons v rest ih =>
    intro p n
    rw [stackSegments]
    split <;> simp [ih]

theorem stackSegments_fst_le_snd :
    ∀ {vals : List ℚ} {posY negY : ℚ} {s : ℚ × ℚ},
      s ∈ stackSegments posY negY vals → s.1 ≤ s.2 := by
  intro vals
  induction vals with
  | nil => intro p n s hs; simp [stackSegments] at hs
  | cons v rest ih =>
    intro p n s hs
    rw [stackSegments] at hs
    split at hs <;> rcases (List.mem_cons).1 hs with h | h
    · subst h; simp only; linarith
    · exact ih h
    · subst h
      simp only
      have := abs_nonneg v
      linarith
    · exact ih h

theorem stackSegments_contig :
    ∀ (vals : List ℚ) (posY negY : ℚ) (k : ℕ), k + 1 < vals.length →
      ((0 ≤ vals.getD k 0 ∧ 0 ≤ vals.getD (k + 1) 0) ∨
        (vals.getD k 0 < 0 ∧ vals.getD (k + 1) 0 < 0)) →
      ((stackSegments posY negY vals).getD k (0, 0)).2 =
        ((stackSegments posY negY vals).getD (k + 1) (0, 0)).1 := by
  intro vals
  induction vals with
  | nil => intro p n k hk; simp at hk
  | cons v rest ih =>
    intro p n k hk hsign
    match k with
    | 0 =>
      cases rest with
      | nil => simp at hk
      | cons w rest' =>
        by_cases hv : 0 ≤ v
        · have hw : 0 ≤ w := by
            rcases hsign with ⟨_, hw⟩ | ⟨hv', _⟩
            · simpa using hw
            · simp at hv'; linarith
          rw [stackSegments, if_pos hv, stackSegments, if_pos hw]
          simp
        · have hw : ¬ 0 ≤ w := by
            rcases hsign with ⟨hv', _⟩ | ⟨_, hw⟩
            · simp at hv'; exact absurd hv' hv
            · simp at hw; linarith
          rw [stackSegments, if_neg hv, stackSegments, if_neg hw]
          simp
    | k' + 1 =>
      have hk' : k' + 1 < rest.length := by simpa using hk
      by_cases hv : 0 ≤ v
      · rw [stackSegments, if_pos hv]
        exact ih (p + v) n k' hk' hsign
      · rw [stackSegments, if_neg hv]
        exact ih p (n + |v|) k' hk' hsign

theorem stackRect_edges (inverted : Bool) (phaseY barWidthHalf x : ℚ)
    {s : ℚ × ℚ} (hs : s.1 ≤ s.2) :
    mainStartEdge inverted (stackRect inverted phaseY barWidthHalf x s) = s.1 * phaseY ∧
    mainEndEdge inverted (stackRect inverted phaseY barWidthHalf x s) = s.2 * phaseY := by
  cases inverted <;>
    · constructor <;>
      · simp only [stackRect, mainStartEdge, mainEndEdge, Bool.false_eq_true,
          if_true, if_false]
        split_ifs with h₁
        all_goals first
          | rfl
          | (have h₂ : s.1 = s.2 := le_antisymm hs h₁; rw [h₂])
          | exact absurd hs h₁

theorem getD_map_of_lt {α β : Type} (f : α → β) (l : List α) {k : ℕ}
    (hk : k < l.length) (d : β) (d' : α) :
    (l.map f).getD k d = f (l.getD k d') := by
  simp [List.getD_eq_getElem?_getD, List.getElem?_map,
    List.getElem?_eq_getElem hk]

theorem getD_mem_of_lt {α : Type} (l : List α) {k : ℕ} (hk : k < l.length)
    (d : α) : l.getD k d ∈ l := by
  rw [List.getD_eq_getElem?_getD, List.getElem?_eq_getElem hk]
  exact List.getElem_mem hk

theorem feedPlain_false_eq (phaseY barWidthHalf x y : ℚ) :
    feedPlain false phaseY barWidthHalf x y =
      if 0 ≤ y then ⟨0, x + barWidthHalf, y * phaseY, x - barWidthHalf⟩
      else ⟨y * phaseY, x + barWidthHalf, 0, x - barWidthHalf⟩ := by
  rcases le_or_lt 0 y with hy | hy
  · simp only [feedPlain, Bool.false_eq_true, if_false, if_pos hy]
    split_ifs with h1 h2 <;> first
      | (exfalso; linarith)
      | rfl
      | (congr 1 <;> first
          | rfl
          | (have h0 : y = 0 := by linarith
             rw [h0]; try ring))
  · simp only [feedPlain, Bool.false_eq_true, if_false,
      if_neg (not_le.mpr hy), if_pos (le_of_lt hy)]
    split_ifs with h1 <;> first
      | (exfalso; linarith)
      | rfl

theorem feedPlain_true_eq (phaseY barWidthHalf x y : ℚ) :
    feedPlain true phaseY barWidthHalf x y =
      if 0 ≤ y then ⟨y * phaseY, x + barWidthHalf, 0, x - barWidthHalf⟩
      else ⟨0, x + barWidthHalf, y, x - barWidthHalf⟩ := by
  rcases le_or_lt 0 y with hy | hy
  · simp only [feedPlain, if_true, if_pos hy]
    split_ifs with h1 h2 <;> first
      | (exfalso; linarith)
      | rfl
      | (congr 1 <;> first
          | rfl
          | (have h0 : y = 0 := by linarith
             rw [h0]; try ring))
  · simp only [feedPlain, if_true, if_neg (not_le.mpr hy), if_pos (le_of_lt hy)]
    split_ifs with h1 <;> first
      | (exfalso; linarith)
      | (congr 1 <;> first | rfl | ring)

theorem scan_misses_of_outside {value : ℚ} {ranges : List (ℚ × ℚ)}
    (hwf : ∀ p ∈ ranges, p.1 ≤ p.2)
    (hout : ∀ p ∈ ranges, ¬(p.1 ≤ value ∧ value ≤ p.2)) :
    stackScan value ranges = none := by
  refine stackScan_eq_none fun p hp => ?_
  have h1 := hwf p hp
  have h2 := hout p hp
  constructor <;> rintro rfl <;> exact h2 ⟨by linarith, by linarith⟩

/-! ## Claims -/

/-- C1: the claim states that `getClosestStackIndex` returns the index of
the first range whose closed interval `[start, end]` contains the value,
with `[[0,3],[3,5],[-2,0]]` / `4 ↦ 1`, `[[0,3],[-2,0]]` / `2 ↦ 0` and
`-1 ↦ 1`.  The code instead tests `ranges[i].includes(value)` —
`Array.prototype.includes`, i.e. membership among the two endpoints — so
none of these values matches any range and the fallback branch decides:
this theorem evaluates the embedded code at the claim's own inputs and
gets `2`, `1` and `0` where the claim demands `1`, `0` and `1`. -/
theorem c1_closestStackIndex_code_behavior :
    getClosestStackIndex [(0, 3), (3, 5), (-2, 0)] 4 = 2 ∧
    getClosestStackIndex [(0, 3), (-2, 0)] 2 = 1 ∧
    getClosestStackIndex [(0, 3), (-2, 0)] (-1) = 0 := by
  decide

/-- C7: a value lying exactly on the shared boundary between two adjacent
ranges (`end` of range `i` = `start` of range `i+1` = `value`), and not
contained in any earlier well-formed range, resolves to the earlier index
`i`; in particular `[[0,3],[3,5],[-2,0]]` maps `0 ↦ 0` and `3 ↦ 0`.
(Boundary values are exactly the array endpoints, so the endpoint-membership
scan agrees with the spec's interval scan here.) -/
theorem c7_boundary_earlier_range_wins (ranges : List (ℚ × ℚ)) (value : ℚ)
    (i : ℕ) (hi1 : i + 1 < ranges.length)
    (hend : (ranges.getD i (0, 0)).2 = value)
    (hstart : (ranges.getD (i + 1) (0, 0)).1 = value)
    (hwf : ∀ p ∈ ranges, p.1 ≤ p.2)
    (hbefore : ∀ j < i,
      ¬((ranges.getD j (0, 0)).1 ≤ value ∧ value ≤ (ranges.getD j (0, 0)).2)) :
    getClosestStackIndex ranges value = i ∧
    getClosestStackIndex [(0, 3), (3, 5), (-2, 0)] 0 = 0 ∧
    getClosestStackIndex [(0, 3), (3, 5), (-2, 0)] 3 = 0 := by
  refine ⟨?_, by decide, by decide⟩
  have hscan : stackScan value ranges = some i := by
    refine stackScan_first (by omega) (Or.inr hend.symm) fun j hj => ?_
    have hj' : j < ranges.length := by omega
    have h1 := hwf _ (getD_mem_of_lt ranges hj' (0, 0))
    have h2 := hbefore j hj
    constructor <;> rintro rfl <;> exact h2 ⟨by linarith, by linarith⟩
  unfold getClosestStackIndex
  rw [if_neg (by omega), hscan]

/-- Witness for C7 at ranges `[[0,3],[3,5]]`, boundary value `3` between
ranges `0` and `1`. -/
theorem c7_boundary_earlier_range_wins_witness :
    getClosestStackIndex [(0, 3), (3, 5)] 3 = 0 := by
  have h := c7_boundary_earlier_range_wins [(0, 3), (3, 5)] 3 0
    (by decide) (by decide) (by decide) (by decide)
    (fun j hj => absurd hj (by omega))
  exact h.1

/-- C8: `getClosestStackIndex` returns `0` on empty ranges; when the value
lies outside every (well-formed) range's interval, it returns the last
index when the value exceeds the last range's end and `0` otherwise; in
particular `[[0,3],[3,5],[-2,0]]` / `10 ↦ 2`. -/
theorem c8_fallback_behavior (ranges : List (ℚ × ℚ)) (value : ℚ)
    (hne : ranges ≠ [])
    (hwf : ∀ p ∈ ranges, p.1 ≤ p.2)
    (hout : ∀ p ∈ ranges, ¬(p.1 ≤ value ∧ value ≤ p.2)) :
    getClosestStackIndex [] value = 0 ∧
    getClosestStackIndex ranges value =
      (if (ranges.getD (ranges.length - 1) (0, 0)).2 < value
        then ranges.length - 1 else 0) ∧
    getClosestStackIndex [(0, 3), (3, 5), (-2, 0)] 10 = 2 := by
  refine ⟨rfl, ?_, by decide⟩
  have hpos : 0 < ranges.length := List.length_pos.mpr hne
  unfold getClosestStackIndex
  rw [if_neg (by omega), scan_misses_of_outside hwf hout]

/-- Witness for C8 at ranges `[[0,3],[5,7]]` and value `10`, which lies
outside both ranges and beyond the last end, hence resolves to the last
index `1`. -/
theorem c8_fallback_behavior_witness :
    getClosestStackIndex [(0, 3), (5, 7)] 10 = 1 := by
  have h := c8_fallback_behavior [(0, 3), (5, 7)] 10 (by decide) (by decide)
    (by decide)
  have h2 := h.2.1
  norm_num at h2
  exact h2

/-- C2: when the entry exists, carries stack components and has non-empty
derived ranges, `getStackedHighlight` returns a freshly constructed
`Highlight` whose `x`/`y` come from the entry through the data set's
configured accessors (`xProperty`/`yProperty`), whose pixel position is
the transform of the selected range's end value (paired with the
candidate's `x`), and which carries the candidate's data-set index, the
resolved stack index and the candidate's axis. -/
theorem c2_stacked_highlight_construction (pixelForValues : ℕ → ℚ → ℚ → ℚ × ℚ)
    (high : Highlight) (set : BarDataSetM) (xVal yVal : ℚ)
    (entry : BarEntryM) (vs : List ℚ)
    (hentry : set.getEntryForXValue xVal yVal = some entry)
    (hvals : entry.yVals = some vs)
    (hranges : entry.ranges ≠ []) :
    getStackedHighlight pixelForValues high set xVal yVal =
      some { x := entry.props set.xProperty
             y := entry.props set.yProperty
             xPx := (pixelForValues set.axisDependency high.x
               (entry.ranges.getD (getClosestStackIndex entry.ranges yVal) (0, 0)).2).1
             yPx := (pixelForValues set.axisDependency high.x
               (entry.ranges.getD (getClosestStackIndex entry.ranges yVal) (0, 0)).2).2
             dataSetIndex := high.dataSetIndex
             stackIndex := some (getClosestStackIndex entry.ranges yVal)
             axis := high.axis
             entry := none
             drawX := none
             drawY := none } := by
  simp only [getStackedHighlight, hentry, hvals]
  rw [if_pos (List.length_pos.mpr hranges)]

/-- Witness for C2: one entry with components `[3, -2]`, ranges
`[[0,3],[-2,0]]`, every dynamic property equal to `7`, identity-plus
transform, touch value `y = 2` resolving to stack index `1` (per the
endpoint-membership fallback of the code). -/
theorem c2_stacked_highlight_construction_witness :
    getStackedHighlight (fun _ a b => (a + b, b))
      { x := 5, y := 2, xPx := 0, yPx := 0, dataSetIndex := 3
        stackIndex := none, axis := 1, entry := none, drawX := none, drawY := none }
      { xProperty := "x", yProperty := "y", axisDependency := 0
        getEntryForXValue := fun _ _ => some
          { props := fun _ => 7, x := 0, y := 1
            yVals := some [3, -2], ranges := [(0, 3), (-2, 0)], negativeSum := 2 } }
      0 2 =
      some { x := 7, y := 7, xPx := 5, yPx := 0, dataSetIndex := 3
             stackIndex := some 1, axis := 1, entry := none
             drawX := none, drawY := none } := by
  have h := c2_stacked_highlight_construction (fun _ a b => (a + b, b))
    { x := 5, y := 2, xPx := 0, yPx := 0, dataSetIndex := 3
      stackIndex := none, axis := 1, entry := none, drawX := none, drawY := none }
    { xProperty := "x", yProperty := "y", axisDependency := 0
      getEntryForXValue := fun _ _ => some
        { props := fun _ => 7, x := 0, y := 1
          yVals := some [3, -2], ranges := [(0, 3), (-2, 0)], negativeSum := 2 } }
    0 2
    { props := fun _ => 7, x := 0, y := 1
      yVals := some [3, -2], ranges := [(0, 3), (-2, 0)], negativeSum := 2 }
    [3, -2] rfl rfl (by decide)
  rw [h]
  norm_num [getClosestStackIndex, stackScan]

/-- C9: `getStackedHighlight` returns an absent result exactly when the
entry lookup fails or when the entry has stack components but empty
ranges; when the entry has no components it returns the candidate
unchanged; and whenever ranges are non-empty the resolved stack index is a
valid position in them (so the code's `ranges[stackIndex]` access, and
hence the whole resolution, cannot fail). -/
theorem c9_stacked_highlight_absent_iff (pixelForValues : ℕ → ℚ → ℚ → ℚ × ℚ)
    (high : Highlight) (set : BarDataSetM) (xVal yVal : ℚ) :
    (getStackedHighlight pixelForValues high set xVal yVal = none ↔
      set.getEntryForXValue xVal yVal = none ∨
      (∃ e, set.getEntryForXValue xVal yVal = some e ∧
        e.yVals.isSome ∧ e.ranges = [])) ∧
    (∀ e, set.getEntryForXValue xVal yVal = some e → e.yVals = none →
      getStackedHighlight pixelForValues high set xVal yVal = some high) ∧
    (∀ e, set.getEntryForXValue xVal yVal = some e → e.ranges ≠ [] →
      getClosestStackIndex e.ranges yVal < e.ranges.length) := by
  refine ⟨?_, ?_, ?_⟩
  · cases he : set.getEntryForXValue xVal yVal with
    | none => simp [getStackedHighlight, he]
    | some e =>
      cases hv : e.yVals with
      | none => simp [getStackedHighlight, he, hv]
      | some vs =>
        by_cases hr : 0 < e.ranges.length
        · simp only [getStackedHighlight, he, hv, if_pos hr]
          simp only [reduceCtorEq, false_iff, not_or]
          refine ⟨by simp, ?_⟩
          rintro ⟨e', he', _, hr'⟩
          injection he' with hee
          subst hee
          rw [hr'] at hr
          simp at hr
        · simp only [getStackedHighlight, he, hv, if_neg hr]
          simp only [true_iff]
          refine Or.inr ⟨e, rfl, by simp [hv], ?_⟩
          simpa using hr
  · intro e he hv
    simp only [getStackedHighlight, he, hv]
  · intro e _ hr
    exact getClosestStackIndex_lt hr yVal

/-- Witness for C9: a data set whose lookup returns a non-stacked entry
(`yVals` absent) hands back the candidate unchanged. -/
theorem c9_stacked_highlight_absent_iff_witness :
    getStackedHighlight (fun _ a b => (a, b))
      { x := 1, y := 2, xPx := 3, yPx := 4, dataSetIndex := 0
        stackIndex := none, axis := 0, entry := none, drawX := none, drawY := none }
      { xProperty := "x", yProperty := "y", axisDependency := 0
        getEntryForXValue := fun _ _ => some
          { props := fun _ => 0, x := 0, y := 0
            yVals := none, ranges := [], negativeSum := 0 } }
      0 0 =
      some { x := 1, y := 2, xPx := 3, yPx := 4, dataSetIndex := 0
             stackIndex := none, axis := 0, entry := none
             drawX := none, drawY := none } := by
  have h := c9_stacked_highlight_absent_iff (fun _ a b => (a, b))
    { x := 1, y := 2, xPx := 3, yPx := 4, dataSetIndex := 0
      stackIndex := none, axis := 0, entry := none, drawX := none, drawY := none }
    { xProperty := "x", yProperty := "y", axisDependency := 0
      getEntryForXValue := fun _ _ => some
        { props := fun _ => 0, x := 0, y := 0
          yVals := none, ranges := [], negativeSum := 0 } }
    0 0
  exact h.2.1 _ rfl rfl

/-- C5 counterexample: the claim asserts that for every non-stacked entry
the phase multiplies only the edge away from zero.  For the inverted
orientation with value `-5` and phase `1/2`, the code multiplies the
zero-anchored `left` edge (a no-op) and leaves the far edge at the full
`-5` rather than the claimed `-5 * 1/2`. -/
theorem c5_phase_scaling_counterexample :
    (feedPlain true (1 / 2) 1 0 (-5)).left = 0 ∧
    (feedPlain true (1 / 2) 1 0 (-5)).right = -5 ∧
    (-5 : ℚ) * (1 / 2) ≠ -5 := by
  refine ⟨?_, ?_, by norm_num⟩ <;> · rw [feedPlain_true_eq]; norm_num

/-- C5 amended: the rectangle's main-axis span starts at `0` and extends
toward the sign of `y`, and the phase multiplies only the far edge —
except in the inverted orientation with `y < 0`, where the code scales the
zero-anchored edge instead, so the far edge keeps its full extent `y`.
The claim's own example (value `5`, phase `1/2`) holds: zero edge `0`,
far edge `5 * 1/2`. -/
theorem c5_baseline_anchoring_amended (phaseY barWidthHalf x y : ℚ) :
    (feedPlain false phaseY barWidthHalf x y).top = x + barWidthHalf ∧
    (feedPlain false phaseY barWidthHalf x y).bottom = x - barWidthHalf ∧
    (0 ≤ y → (feedPlain false phaseY barWidthHalf x y).left = 0 ∧
      (feedPlain false phaseY barWidthHalf x y).right = y * phaseY) ∧
    (y ≤ 0 → (feedPlain false phaseY barWidthHalf x y).left = y * phaseY ∧
      (feedPlain false phaseY barWidthHalf x y).right = 0) ∧
    (0 ≤ y → (feedPlain true phaseY barWidthHalf x y).right = 0 ∧
      (feedPlain true phaseY barWidthHalf x y).left = y * phaseY) ∧
    (y < 0 → (feedPlain true phaseY barWidthHalf x y).right = y ∧
      (feedPlain true phaseY barWidthHalf x y).left = 0) ∧
    (feedPlain false (1 / 2) barWidthHalf x 5).left = 0 ∧
    (feedPlain false (1 / 2) barWidthHalf x 5).right = 5 * (1 / 2) := by
  refine ⟨?_, ?_, ?_, ?_, ?_, ?_, ?_, ?_⟩
  · rw [feedPlain_false_eq]; split_ifs <;> rfl
  · rw [feedPlain_false_eq]; split_ifs <;> rfl
  · intro hy; rw [feedPlain_false_eq, if_pos hy]; exact ⟨rfl, rfl⟩
  · intro hy
    rcases lt_or_eq_of_le hy with hlt | heq
    · rw [feedPlain_false_eq, if_neg (not_le.mpr hlt)]; exact ⟨rfl, rfl⟩
    · subst heq
      rw [feedPlain_false_eq, if_pos le_rfl]
      constructor
      · show (0 : ℚ) = 0 * phaseY
        ring
      · show (0 : ℚ) * phaseY = 0
        ring
  · intro hy; rw [feedPlain_true_eq, if_pos hy]; exact ⟨rfl, rfl⟩
  · intro hy; rw [feedPlain_true_eq, if_neg (not_le.mpr hy)]; exact ⟨rfl, rfl⟩
  · rw [feedPlain_false_eq]; norm_num
  · rw [feedPlain_false_eq]; norm_num

/-- Witness for the amended C5 at the claim's own example: non-inverted,
value `5`, phase `1/2`. -/
theorem c5_baseline_anchoring_amended_witness :
    (feedPlain false (1 / 2) 1 0 5).left = 0 ∧
    (feedPlain false (1 / 2) 1 0 5).right = 5 * (1 / 2) := by
  have h := c5_baseline_anchoring_amended (1 / 2) 1 0 5
  exact h.2.2.1 (by norm_num)

/-- C6: the stacked branch of the horizontal bar buffer appends exactly one
rectangle per stack component, in component order (equal lengths), with
the two cursors starting at `0` and `-negativeSum`; adjacent same-sign
components produce contiguous spans (the earlier one's main-axis end equals
the later one's main-axis start, both scaled by the same phase); and
components `[3, -2]` at phase `1` produce the spans `[0, 3]` then
`[-2, 0]` in that order. -/
theorem c6_stacked_contiguity (inverted : Bool)
    (phaseY barWidthHalf x negativeSum : ℚ) (vals : List ℚ) (k : ℕ)
    (hk : k + 1 < vals.length)
    (hsign : (0 ≤ vals.getD k 0 ∧ 0 ≤ vals.getD (k + 1) 0) ∨
      (vals.getD k 0 < 0 ∧ vals.getD (k + 1) 0 < 0)) :
    (feedStacked inverted phaseY barWidthHalf x negativeSum vals).length =
      vals.length ∧
    mainEndEdge inverted
        ((feedStacked inverted phaseY barWidthHalf x negativeSum vals).getD k
          ⟨0, 0, 0, 0⟩) =
      mainStartEdge inverted
        ((feedStacked inverted phaseY barWidthHalf x negativeSum vals).getD (k + 1)
          ⟨0, 0, 0, 0⟩) ∧
    ((feedStacked false 1 barWidthHalf x 2 [3, -2]).map fun r => (r.left, r.right)) =
      [(0, 3), (-2, 0)] := by
  have hlen := stackSegments_length vals 0 (-negativeSum)
  refine ⟨by simp [feedStacked, hlen], ?_, ?_⟩
  · have hk1 : k < (stackSegments 0 (-negativeSum) vals).length := by omega
    have hk2 : k + 1 < (stackSegments 0 (-negativeSum) vals).length := by omega
    rw [feedStacked, getD_map_of_lt _ _ hk1 _ (0, 0), getD_map_of_lt _ _ hk2 _ (0, 0)]
    have hs1 := stackSegments_fst_le_snd (getD_mem_of_lt _ hk1 (0, 0))
    have hs2 := stackSegments_fst_le_snd (getD_mem_of_lt _ hk2 (0, 0))
    rw [(stackRect_edges inverted phaseY barWidthHalf x hs1).2,
      (stackRect_edges inverted phaseY barWidthHalf x hs2).1,
      stackSegments_contig vals 0 (-negativeSum) k hk hsign]
  · have habs : |(-2 : ℚ)| = 2 := by norm_num
    simp only [feedStacked, stackSegments, habs, List.map_cons, List.map_nil]
    norm_num [stackRect]

/-- Witness for C6: components `[2, 3]` (adjacent, both non-negative) in a
non-inverted buffer at phase `1`: the first rectangle ends where the second
begins. -/
theorem c6_stacked_contiguity_witness :
    mainEndEdge false ((feedStacked false 1 1 0 0 [2, 3]).getD 0 ⟨0, 0, 0, 0⟩) =
      mainStartEdge false ((feedStacked false 1 1 0 0 [2, 3]).getD 1 ⟨0, 0, 0, 0⟩) := by
  exact (c6_stacked_contiguity false 1 1 0 0 [2, 3] 0 (by decide)
    (Or.inl (by decide))).2.1

/-- C4 counterexample: the claim says every field of a `Highlight` passed
into `drawHighlighted` is unchanged after the call.  With a highlight-enabled
data set whose entry matches the highlight's `y` and passes the x-bounds
check, lines 223-224 assign `high.drawX`/`high.drawY` in place: the `drawX`
field changes from absent to the transformed pixel x. -/
theorem c4_drawHighlighted_mutation_counterexample :
    let high0 : Highlight :=
      { x := 1, y := 2, xPx := 0, yPx := 0, dataSetIndex := 0, stackIndex := none
        axis := 0, entry := none, drawX := none, drawY := none }
    let env0 : BubbleEnv :=
      { getDataSetByIndex := fun _ => some
          { yProperty := "y", sizeProperty := "size", highlightEnabled := true
            maxSize := 16, normalizeSize := true, axisDependency := 0
            getEntryAndIndexForXValue := fun _ _ => (⟨fun _ => 2⟩, 0)
            getEntryXValue := fun _ _ => 1 }
        pointValuesToPixel := fun _ p => p
        isInBoundsX := fun _ _ => true
        phaseY := 1 }
    (drawHighlightedOne env0 high0).drawX = some 1 ∧ high0.drawX = none := by
  refine ⟨?_, rfl⟩
  show (drawHighlightedOne _ _).drawX = some 1
  norm_num [drawHighlightedOne]

/-- C4 amended: `drawHighlighted` does mutate the highlight it processes,
but only its `drawX`/`drawY` fields (the stored pixel position); every
other field — `x`, `y`, `xPx`, `yPx`, `dataSetIndex`, `stackIndex`, `axis`
and the attached entry — is unchanged whichever path the loop body takes.
The full-bar caller in `BarChart.getHighlightByTouchPoint` does not mutate
either: it builds a fresh object that omits the stack index. -/
theorem c4_drawHighlighted_frame_amended (env : BubbleEnv) (high : Highlight) :
    (drawHighlightedOne env high).x = high.x ∧
    (drawHighlightedOne env high).y = high.y ∧
    (drawHighlightedOne env high).xPx = high.xPx ∧
    (drawHighlightedOne env high).yPx = high.yPx ∧
    (drawHighlightedOne env high).dataSetIndex = high.dataSetIndex ∧
    (drawHighlightedOne env high).stackIndex = high.stackIndex ∧
    (drawHighlightedOne env high).axis = high.axis ∧
    (drawHighlightedOne env high).entry = high.entry ∧
    stripStackIndex high =
      { x := high.x, y := high.y, xPx := high.xPx, yPx := high.yPx
        dataSetIndex := high.dataSetIndex, axis := high.axis
        stackIndex := none, entry := none, drawX := none, drawY := none } := by
  rcases hds : env.getDataSetByIndex high.dataSetIndex with _ | set
  · simp [drawHighlightedOne, hds, stripStackIndex]
  · simp only [drawHighlightedOne, hds]
    split_ifs <;> simp [stripStackIndex]

/-- C3 counterexample: the claim says the drawn circle's radius equals
`reference * sqrt(entrySize / maxSize)` (normalized) or
`entrySize * reference` (legacy), giving `5` and `40` at entry size `4`,
max size `16`, reference `10`.  Both renderers draw with
`getShapeSize(...) / 2` (`shapeHalf`), so the drawn radii are `5/2` and
`20`, not `5` and `40`. -/
theorem c3_drawn_radius_counterexample :
    shapeHalf 4 16 10 true = 5 / 2 ∧ shapeHalf 4 16 10 true ≠ 5 ∧
    shapeHalf 4 16 10 false = 20 ∧ shapeHalf 4 16 10 false ≠ 40 := by
  have h4 : Real.sqrt 4 = 2 := by
    have h42 : (4 : ℝ) = 2 ^ 2 := by norm_num
    rw [h42, Real.sqrt_sq (by norm_num)]
  refine ⟨?_, ?_, ?_, ?_⟩ <;> norm_num [shapeHalf, getShapeSize, h4]

/-- C3 amended: `getShapeSize` — the computed shape size (a diameter) —
equals `reference * sqrt(entrySize / maxSize)` when normalization is
enabled (and `maxSize ≠ 0`) and `entrySize * reference` otherwise; the
circle is drawn with half that value, so the drawn radius is
`reference * sqrt(entrySize / maxSize) / 2` resp. `entrySize * reference / 2`
(`5/2` and `20` at the claim's example inputs). -/
theorem c3_shape_size_amended (e m r : ℚ) (hm : m ≠ 0) :
    getShapeSize e m r true = (r : ℝ) * Real.sqrt ((e : ℝ) / (m : ℝ)) ∧
    getShapeSize e m r false = (e : ℝ) * (r : ℝ) ∧
    shapeHalf e m r true = (r : ℝ) * Real.sqrt ((e : ℝ) / (m : ℝ)) / 2 ∧
    shapeHalf e m r false = (e : ℝ) * (r : ℝ) / 2 := by
  have hcast : ((e / m : ℚ) : ℝ) = (e : ℝ) / (m : ℝ) := by push_cast; ring
  refine ⟨?_, ?_, ?_, ?_⟩ <;>
    · simp [getShapeSize, shapeHalf, if_neg hm, hcast]
      try ring

/-- Witness for the amended C3 at the claim's example inputs. -/
theorem c3_shape_size_amended_witness :
    shapeHalf 4 16 10 true =
      ((10 : ℚ) : ℝ) * Real.sqrt (((4 : ℚ) : ℝ) / ((16 : ℚ) : ℝ)) / 2 :=
  (c3_shape_size_amended 4 16 10 (by norm_num)).2.2.1

/-- C10: with size normalization enabled and `maxSize = 0`, the guard in
`getShapeSize` sets the factor to `1` instead of dividing by zero, so the
shape size equals the reference exactly (a well-defined real number — no
division by zero is evaluated), and the drawn radius is half of it. -/
theorem c10_zero_maxSize_guard (e r : ℚ) :
    getShapeSize e 0 r true = (r : ℝ) ∧ shapeHalf e 0 r true = (r : ℝ) / 2 := by
  constructor <;> simp [getShapeSize, shapeHalf]

end ChartCore

